import Mathlib

/-!
Verification of the RSP6551 items-verification app (src/items_verification_app.py)
against its natural-language specification.

The program is a read-normalize-compare-write flow over a table of people × items
stored in a spreadsheet.  Cells hold loosely-typed Python values (NaN, numbers,
strings); the app normalizes each cell to one of three states, edits one person's
row, keeps a one-time backup, and computes tally summaries.

Shallow embedding conventions:
- a raw spreadsheet cell is `RawVal` (missing marker, integer, float, string);
  Python `==` on cells is `peq` (numbers compare across int/float, strings compare
  to strings, NaN equals nothing), and Python `str()` is `pystr`;
- the Python float's decimal rendering is abridged in `floatStr`: the code only
  ever compares it with the one-character strings "1" and "ת", and every float
  rendering contains a decimal point, so only its shape matters;
- a DataFrame is `Table` (column list plus rows of column/value pairs), and the
  Google-Sheets / local-Excel persistence state is `Store` (main contents plus an
  optional backup); the remote backend's worksheet list is `Spreadsheet`;
- arithmetic for the percentage columns is exact rational arithmetic, with
  `round1` the round-half-to-even rounding to one decimal used by Python round.
-/

/-- A raw spreadsheet cell value as the Python code sees it: a missing marker
(`pd.isna`), an integer, a float, or a string. -/
inductive RawVal where
  | nan : RawVal
  | int : Int → RawVal
  | float : ℚ → RawVal
  | str : String → RawVal
deriving DecidableEq

/-- Embeds `pd.isna(val)`: true exactly on the missing marker. -/
def RawVal.isna : RawVal → Bool
  | RawVal.nan => true
  | _ => false

/-- Embeds Python `==` on cell values: numbers compare by value across int/float,
strings compare to strings, `NaN` compares equal to nothing (including itself),
and numbers never equal strings. -/
def peq : RawVal → RawVal → Bool
  | RawVal.int a, RawVal.int b => a == b
  | RawVal.int a, RawVal.float b => decide ((a : ℚ) = b)
  | RawVal.float a, RawVal.int b => decide (a = (b : ℚ))
  | RawVal.float a, RawVal.float b => decide (a = b)
  | RawVal.str a, RawVal.str b => a == b
  | _, _ => false

/-- Decimal digit characters, used to embed the decimal rendering of numbers. -/
def digitChar : Nat → Char
  | 0 => '0'
  | 1 => '1'
  | 2 => '2'
  | 3 => '3'
  | 4 => '4'
  | 5 => '5'
  | 6 => '6'
  | 7 => '7'
  | 8 => '8'
  | 9 => '9'
  | _ => '?'

/-- Decimal rendering of a natural number (Python `str` of a non-negative int). -/
def natStr (n : Nat) : String :=
  if n = 0 then "0" else String.mk (((Nat.digits 10 n).map digitChar).reverse)

/-- Decimal rendering of an integer (Python `str` of an int). -/
def intStr (i : Int) : String :=
  if i < 0 then "-" ++ natStr i.natAbs else natStr i.natAbs

/-- Rendering of a float (Python `str` of a float).  The fractional part is
schematic: the code only compares the result with "1" and "ת", and a float
rendering always contains a decimal point, so only that shape is relevant. -/
def floatStr (q : ℚ) : String :=
  intStr q.num ++ "." ++ (if q.den = 1 then "0" else natStr q.den)

/-- Embeds Python `str(val)` on cell values. -/
def pystr : RawVal → String
  | RawVal.nan => "nan"
  | RawVal.int n => intStr n
  | RawVal.float q => floatStr q
  | RawVal.str s => s

/-- The three canonical item states of the app: `None` / `1` / `"ת"` in the code,
displayed as "אין" / "יש" / "תרומה". -/
inductive Status where
  | absent : Status
  | present : Status
  | donated : Status
deriving DecidableEq

/-- The value normalizer, embedding the condition chain of
`get_person_item_status` (src lines 299-305), which recurs verbatim in
`admin_summarize_table` (lines 526-533, 577-584, 631-638) and
`admin_summarize_changes` (lines 707-719):
missing/empty/zero → absent; `== 1 or == 1.0 or str == '1'` → present;
`str == 'ת'` → donated; anything else → absent. -/
def classify (v : RawVal) : Status :=
  if RawVal.isna v || peq v (RawVal.str "") || peq v (RawVal.int 0) then Status.absent
  else if peq v (RawVal.int 1) || peq v (RawVal.float 1) || pystr v == "1" then Status.present
  else if pystr v == "ת" then Status.donated
  else Status.absent

/-- C1's normalization rule written from the spec's words: missing/NaN, empty
string, or zero → Absent; the number 1 (including 1.0) or the string "1" →
Present; the donation marker token "ת" → Donated; every other value → Absent. -/
def specNormalize (v : RawVal) : Status :=
  if v = RawVal.nan ∨ v = RawVal.str "" ∨ v = RawVal.int 0 ∨ v = RawVal.float 0 then Status.absent
  else if v = RawVal.int 1 ∨ v = RawVal.float 1 ∨ v = RawVal.str "1" then Status.present
  else if v = RawVal.str "ת" then Status.donated
  else Status.absent

/-- The canonical write encoding of a state, from `STATUS_MAP` (line 230)
composed with the write step `status if status is not None else ""` of
`save_verification` (line 350): absent → "", present → 1, donated → "ת". -/
def encodeStatus : Status → RawVal
  | Status.absent => RawVal.str ""
  | Status.present => RawVal.int 1
  | Status.donated => RawVal.str "ת"

/-- Display labels, from `REVERSE_STATUS_MAP` (line 231) restricted to the
reachable keys `None`, `1`, `"ת"`. -/
def displayStatus : Status → String
  | Status.absent => "אין"
  | Status.present => "יש"
  | Status.donated => "תרומה"

/-- The fixed metadata column names, `METADATA_COLS` (line 223). -/
def METADATA_COLS : List String := ["תא אחסון", "צוות", "שם", "Unnamed: 26", "זיכוי"]

/-- One table row: an association of column names to raw cell values. -/
abbrev Row := List (String × RawVal)

/-- Cell lookup in a row; a column with no entry reads as the missing marker
(matching `row.get(item)` returning a missing value). -/
def Row.get : Row → String → RawVal
  | [], _ => RawVal.nan
  | p :: r, c => if p.1 = c then p.2 else Row.get r c

/-- Cell update in a row (dict/`.at` assignment): replaces the binding of the
column, or appends one if the column has no binding yet. -/
def Row.set : Row → String → RawVal → Row
  | [], c, v => [(c, v)]
  | p :: r, c, v => if p.1 = c then (c, v) :: Row.set r c v else p :: Row.set r c v

/-- A loaded DataFrame: the ordered column list and the list of person rows. -/
structure Table where
  cols : List String
  rows : List Row
deriving DecidableEq

/-- Cell access by row index and column name; out-of-range rows read as empty. -/
def Table.cell (df : Table) (j : Nat) (c : String) : RawVal :=
  Row.get (df.rows.getD j []) c

/-- Embeds `df.at[idx, col] = v`: update one cell of one row. -/
def Table.setCell (df : Table) (i : Nat) (c : String) (v : RawVal) : Table :=
  { df with rows := df.rows.set i (Row.set (df.rows.getD i []) c v) }

/-- Embeds `df[col] = v` for a fresh column: appends the column and gives every
row the value `v` in it. -/
def Table.addCol (df : Table) (c : String) (v : RawVal) : Table :=
  { cols := df.cols ++ [c], rows := df.rows.map (fun r => Row.set r c v) }

/-- Embeds `get_all_items` (lines 286-288): all columns not in `METADATA_COLS`. -/
def get_all_items (df : Table) : List String :=
  df.cols.filter (fun c => !(METADATA_COLS.contains c))

/-- First-occurrence de-duplication under Python equality, embedding
`.unique()` / `set(...)` construction over cell values. -/
def dedupFirst : List RawVal → List RawVal
  | [] => []
  | x :: xs => x :: (dedupFirst xs).filter (fun y => !(peq x y))

/-- Embeds `df['שם'].dropna().unique()`: the distinct non-missing name cells. -/
def tableNames (df : Table) : List RawVal :=
  dedupFirst ((df.rows.map (fun r => Row.get r "שם")).filter (fun v => !(RawVal.isna v)))

/-- Embeds `total_people = len(names)` of `admin_summarize_table` (line 515). -/
def total_people (df : Table) : Nat := (tableNames df).length

/-- Index of the first row whose name cell compares `==` to the person key,
embedding `df[df['שם'] == name].index` followed by `[0]` (lines 342-346). -/
def firstMatchIdx : List Row → String → Option Nat
  | [], _ => none
  | r :: rest, name =>
      if peq (Row.get r "שם") (RawVal.str name) then some 0
      else (firstMatchIdx rest name).map (fun i => i + 1)

/-- Embeds `get_person_item_status` (lines 291-305): locate the person's first
row and normalize the item cell; a missing person reads as absent (`None`). -/
def get_person_item_status (df : Table) (name : String) (item : String) : Status :=
  match df.rows.find? (fun r => peq (Row.get r "שם") (RawVal.str name)) with
  | none => Status.absent
  | some r => classify (Row.get r item)

/-- The tally loop that recurs in `admin_summarize_table` (lines 520-533 per
item, 572-584 per person, 628-638 per team): counts of present / donated /
absent over a sequence of cells, classified by the normalizer's chain. -/
def tally {α : Type} (l : List α) (f : α → Status) : Nat × Nat × Nat :=
  l.foldl (fun acc x =>
    match f x with
    | Status.present => (acc.1 + 1, acc.2.1, acc.2.2)
    | Status.donated => (acc.1, acc.2.1 + 1, acc.2.2)
    | Status.absent => (acc.1, acc.2.1, acc.2.2 + 1)) (0, 0, 0)

/-- Round half to even to an integer (the tie behavior of Python `round`),
on exact rationals. -/
def rhe (q : ℚ) : Int :=
  if q - (q.floor : ℚ) < 1/2 then q.floor
  else if 1/2 < q - (q.floor : ℚ) then q.floor + 1
  else if q.floor % 2 = 0 then q.floor else q.floor + 1

/-- Embeds Python `round(x, 1)` on exact rationals. -/
def round1 (q : ℚ) : ℚ := (rhe (q * 10) : ℚ) / 10

/-- One line of the per-item summary of `admin_summarize_table` (lines 534-541). -/
structure ItemSummary where
  item : String
  has_count : Nat
  donation_count : Nat
  missing_count : Nat
  total_exists : Nat
  pct_exists : ℚ
deriving DecidableEq

/-- Embeds the per-item summary row of `admin_summarize_table` (lines 519-541):
tallies over all table rows, and the coverage percentage
`round((has+don)/total_people*100, 1) if total_people > 0 else 0`. -/
def summarizeItem (df : Table) (item : String) : ItemSummary :=
  let c := tally df.rows (fun r => classify (Row.get r item))
  { item := item
    has_count := c.1
    donation_count := c.2.1
    missing_count := c.2.2
    total_exists := c.1 + c.2.1
    pct_exists :=
      if total_people df > 0 then round1 (((c.1 + c.2.1 : ℚ)) / ((total_people df : ℚ)) * 100)
      else 0 }

/-- The claim's "counts across all people" for C3, written from the spec's
words: the number of distinct named people whose (first-row) normalized state
for the item is the given state. -/
def specCountAcrossPeople (df : Table) (item : String) (st : Status) : Nat :=
  (tableNames df).countP (fun n =>
    (match df.rows.find? (fun r => peq (Row.get r "שם") n) with
     | some r => classify (Row.get r item)
     | none => Status.absent) == st)

/-- One line of the per-person summary of `admin_summarize_table`
(lines 585-593). -/
structure PersonSummary where
  name : RawVal
  team : RawVal
  has_count : Nat
  donation_count : Nat
  missing_count : Nat
  total_exists : Nat
  pct_exists : ℚ
deriving DecidableEq

/-- Embeds the per-person summary of `admin_summarize_table` (lines 567-593):
rows whose name is missing or empty are skipped; for the rest, tallies over all
item columns. -/
def summarizePersons (df : Table) : List PersonSummary :=
  df.rows.filterMap (fun r =>
    let nm := Row.get r "שם"
    if RawVal.isna nm || peq nm (RawVal.str "") then none
    else
      let c := tally (get_all_items df) (fun it => classify (Row.get r it))
      some { name := nm
             team := Row.get r "צוות"
             has_count := c.1
             donation_count := c.2.1
             missing_count := c.2.2
             total_exists := c.1 + c.2.1
             pct_exists :=
               if (get_all_items df).length > 0 then
                 round1 (((c.1 + c.2.1 : ℚ)) / (((get_all_items df).length : ℚ)) * 100)
               else 0 })

/-- Persistence state of either backend: the main table contents (`sheet1` /
the Excel file) and the optional one-time backup (`גיבוי_מקורי` worksheet /
backup file). -/
structure Store where
  main : Table
  backup : Option Table
deriving DecidableEq

/-- The backup step of `save_verification`: `ensure_backup_exists`
(lines 321-336) on the remote backend, and the first-save file copy
(lines 379-382) on the local backend.  If a backup exists it is untouched,
otherwise it becomes a full copy of the current stored contents. -/
def backup_step (s : Store) : Store :=
  if s.backup.isSome then s else { s with backup := some s.main }

/-- Embeds `save_verification` (lines 339-385): locate the person's first row
(`None` result if absent, nothing touched); write each item status through the
canonical encoding; if notes are non-empty, create the notes column when
missing and set the matched row's notes cell; ensure the one-time backup; then
overwrite the full stored table.  Returns the location label, the written
table, and the new persistence state. -/
def save_verification (s : Store) (df : Table) (name : String)
    (item_statuses : List (String × Status)) (notes : String) :
    Option String × Table × Store :=
  match firstMatchIdx df.rows name with
  | none => (none, df, s)
  | some idx =>
      let df1 := item_statuses.foldl
        (fun d p => Table.setCell d idx p.1 (encodeStatus p.2)) df
      let df2 :=
        if notes ≠ "" then
          let d := if df1.cols.contains "הערות" then df1
                   else Table.addCol df1 "הערות" (RawVal.str "")
          Table.setCell d idx "הערות" (RawVal.str notes)
        else df1
      let s1 := backup_step s
      (some "הגיליון הראשי", df2, { s1 with main := df2 })

/-- Embeds the verify-and-save click of `main` (lines 867-951): over all item
columns, collect the regression list (`missing_required`, line 901: stored
status not `None` and working choice "אין"), report success iff it is empty,
and invoke `save_verification` regardless.  The working tri-state `w` stands
for the radio selections (the app's radio values biject with `Status` through
`STATUS_MAP`). -/
def main_verify (s : Store) (df : Table) (name : String) (w : String → Status)
    (notes : String) :
    List String × Bool × (Option String × Table × Store) :=
  let items := get_all_items df
  let missing_required := items.foldl
    (fun acc it =>
      if (!(get_person_item_status df name it == Status.absent))
          && (w it == Status.absent)
      then acc ++ [it] else acc) []
  (missing_required, missing_required.isEmpty,
    save_verification s df name (items.map (fun it => (it, w it))) notes)

/-- The fresh row built by the add-user branch of `admin_manage_users`
(lines 455-458): every column empty, then the name, team and storage-cell
fields set to the given values. -/
def newUserRow (cols : List String) (name team cell : String) : Row :=
  Row.set (Row.set (Row.set (cols.map (fun c => (c, RawVal.str "")))
    "שם" (RawVal.str name)) "צוות" (RawVal.str team)) "תא אחסון" (RawVal.str cell)

/-- Embeds the add-user branch of `admin_manage_users` (lines 449-462): error
(and no write) if the name is empty or already present in the name column;
otherwise append the fresh row.  The boolean records whether the write
(`save_df_to_sheet`) is invoked. -/
def admin_add_user (df : Table) (name team cell : String) : Table × Bool :=
  if name = "" then (df, false)
  else if df.rows.any (fun r => peq (Row.get r "שם") (RawVal.str name)) then (df, false)
  else ({ df with rows := df.rows ++ [newUserRow df.cols name team cell] }, true)

/-- A worksheet of the remote backend: its title and its cell grid
(`get_all_values`). -/
structure Worksheet where
  title : String
  grid : List (List String)
deriving DecidableEq

/-- The remote spreadsheet: its worksheet list, `sheet1` first. -/
structure Spreadsheet where
  sheets : List Worksheet
deriving DecidableEq

/-- The fixed backup worksheet title (line 325). -/
def BACKUP_TITLE : String := "גיבוי_מקורי"

/-- Embeds `spreadsheet.sheet1`. -/
def sheet1 (sp : Spreadsheet) : Worksheet := sp.sheets.headD { title := "", grid := [] }

/-- Embeds `ensure_backup_exists` (lines 321-336) on the remote backend: if no
worksheet is titled `גיבוי_מקורי`, add one holding a full copy of sheet1's
current values; otherwise change nothing. -/
def ensure_backup_exists (sp : Spreadsheet) : Spreadsheet :=
  if (sp.sheets.map Worksheet.title).contains BACKUP_TITLE then sp
  else { sheets := sp.sheets ++ [{ title := BACKUP_TITLE, grid := (sheet1 sp).grid }] }

/-- The backup worksheet, if present. -/
def findBackup (sp : Spreadsheet) : Option Worksheet :=
  sp.sheets.find? (fun w => w.title == BACKUP_TITLE)

/-- One change record of `admin_summarize_changes` (lines 724-729). -/
structure ChangeRec where
  name : RawVal
  item : String
  old_display : String
  new_display : String
deriving DecidableEq

/-- The per-user comparison loop of `admin_summarize_changes` (lines 696-729):
for a common user, locate the first matching row on each side and emit a change
record for every common item whose normalized state differs (lines 707-719
restate the normalizer's condition chain, embedded once as `classify`). -/
def changesFor (df backup : Table) (common_items : List String) (n : RawVal) :
    List ChangeRec :=
  match backup.rows.find? (fun r => peq (Row.get r "שם") n),
        df.rows.find? (fun r => peq (Row.get r "שם") n) with
  | some br, some cr =>
      common_items.filterMap (fun it =>
        let old_status := classify (Row.get br it)
        let new_status := classify (Row.get cr it)
        if old_status ≠ new_status then
          some { name := n, item := it,
                 old_display := displayStatus old_status,
                 new_display := displayStatus new_status }
        else none)
  | _, _ => []

/-- Embeds the diff core of `admin_summarize_changes` (lines 674-732): item
change records for users common to both tables, plus the added and removed
user-name sets (Python set differences under `==`).  The code visits common
users in sorted order, which permutes but never changes the resulting records;
the records are accumulated here in first-occurrence order. -/
def admin_summarize_changes (df backup : Table) :
    List ChangeRec × List RawVal × List RawVal :=
  let all_items := get_all_items df
  let backup_items := get_all_items backup
  let common_items := all_items.filter (fun it => backup_items.contains it)
  let current_names := tableNames df
  let backup_names := tableNames backup
  let added := current_names.filter (fun n => !(backup_names.any (fun m => peq m n)))
  let removed := backup_names.filter (fun n => !(current_names.any (fun m => peq m n)))
  let common := current_names.filter (fun n => backup_names.any (fun m => peq m n))
  (common.flatMap (changesFor df backup common_items), added, removed)

/-- A concrete table with one named row and one unnamed row, both holding 1 in
the item column "X". -/
def cexC3 : Table :=
  { cols := ["שם", "X"]
    rows := [[("שם", RawVal.str "a"), ("X", RawVal.int 1)],
             [("שם", RawVal.nan), ("X", RawVal.int 1)]] }

/-- A concrete one-person table over the metadata columns and one item. -/
def wdf4 : Table :=
  { cols := ["שם", "צוות", "תא אחסון", "X"]
    rows := [[("שם", RawVal.str "a"), ("צוות", RawVal.str "t"),
              ("תא אחסון", RawVal.str "c"), ("X", RawVal.nan)]] }

/-- A concrete two-person table used to exercise the save path. -/
def wdf9 : Table :=
  { cols := ["שם", "צוות", "X"]
    rows := [[("שם", RawVal.str "a"), ("צוות", RawVal.str "t"), ("X", RawVal.nan)],
             [("שם", RawVal.str "b"), ("צוות", RawVal.str "t"), ("X", RawVal.int 1)]] }

/-- A concrete persistence state with no backup yet. -/
def wstore : Store := { main := wdf9, backup := none }

/-- A concrete remote spreadsheet with no backup worksheet yet. -/
def wsp : Spreadsheet := { sheets := [{ title := "Sheet1", grid := [["שם"], ["a"]] }] }

/-- A concrete one-person table that already has a notes column holding text:
since the notes column is not in `METADATA_COLS`, the app treats it as an item
column. -/
def ndf : Table :=
  { cols := ["שם", "הערות"]
    rows := [[("שם", RawVal.str "a"), ("הערות", RawVal.str "hello")]] }

/-- A concrete persistence state over `ndf` with no backup yet. -/
def nstore : Store := { main := ndf, backup := none }

/-! ## Helper lemmas about the decimal renderings -/

theorem string_mk_length (l : List Char) : (String.mk l).length = l.length := rfl

theorem natStr_length_pos (n : Nat) : 0 < (natStr n).length := by
  unfold natStr
  split
  · decide
  · rename_i h
    rw [string_mk_length]
    simp only [List.length_reverse, List.length_map]
    exact List.length_pos.mpr (Nat.digits_ne_nil_iff_ne_zero.mpr h)

theorem rev_map_singleton {ds : List Nat} {c : Char}
    (h : (ds.map digitChar).reverse = [c]) : ∃ d, ds = [d] ∧ digitChar d = c := by
  cases ds with
  | nil => simp at h
  | cons d t =>
    cases t with
    | nil =>
      simp at h
      exact ⟨d, rfl, h⟩
    | cons e t2 =>
      exfalso
      have h2 := congrArg List.length h
      simp at h2

theorem digitChar_eq_one {d : Nat} (hd : d < 10) (h : digitChar d = '1') : d = 1 := by
  interval_cases d <;> revert h <;> decide

theorem digitChar_ne_tav {d : Nat} (hd : d < 10) : digitChar d ≠ 'ת' := by
  interval_cases d <;> decide

theorem natStr_eq_one_iff (n : Nat) : natStr n = "1" ↔ n = 1 := by
  constructor
  · intro h
    unfold natStr at h
    split at h
    · exact absurd h (by decide)
    · rename_i hn
      have h2 : ((Nat.digits 10 n).map digitChar).reverse = ['1'] := congrArg String.data h
      obtain ⟨d, hds, hdc⟩ := rev_map_singleton h2
      have hmem : d ∈ Nat.digits 10 n := by rw [hds]; simp
      have hd10 : d < 10 := Nat.digits_lt_base (by norm_num) hmem
      have hd1 : d = 1 := digitChar_eq_one hd10 hdc
      subst hd1
      have h3 := Nat.ofDigits_digits 10 n
      rw [hds] at h3
      simpa [Nat.ofDigits] using h3.symm
  · intro h
    subst h
    have h1 : Nat.digits 10 1 = [1] := by
      rw [Nat.digits_def' (by norm_num : (1:ℕ) < 10) (by norm_num)]
      norm_num
    unfold natStr
    rw [if_neg (by norm_num), h1]
    rfl

theorem natStr_ne_tav (n : Nat) : natStr n ≠ "ת" := by
  intro h
  unfold natStr at h
  split at h
  · exact absurd h (by decide)
  · have h2 : ((Nat.digits 10 n).map digitChar).reverse = ['ת'] := congrArg String.data h
    obtain ⟨d, hds, hdc⟩ := rev_map_singleton h2
    have hmem : d ∈ Nat.digits 10 n := by rw [hds]; simp
    have hd10 : d < 10 := Nat.digits_lt_base (by norm_num) hmem
    exact digitChar_ne_tav hd10 hdc

theorem intStr_eq_one_iff (i : Int) : intStr i = "1" ↔ i = 1 := by
  unfold intStr
  split
  · rename_i hneg
    constructor
    · intro h
      exfalso
      have hl := congrArg String.length h
      rw [String.length_append] at hl
      have hm : ("-" : String).length = 1 := by decide
      have ho : ("1" : String).length = 1 := by decide
      rw [hm, ho] at hl
      have := natStr_length_pos i.natAbs
      omega
    · intro h
      exact absurd h (by omega)
  · rename_i hpos
    rw [natStr_eq_one_iff]
    omega

theorem intStr_ne_tav (i : Int) : intStr i ≠ "ת" := by
  unfold intStr
  split
  · intro h
    have hl := congrArg String.length h
    rw [String.length_append] at hl
    have hm : ("-" : String).length = 1 := by decide
    have ht : ("ת" : String).length = 1 := by decide
    rw [hm, ht] at hl
    have := natStr_length_pos i.natAbs
    omega
  · exact natStr_ne_tav i.natAbs

theorem floatStr_length_ne_one {q : ℚ} {target : String}
    (ht : target.length = 1) : floatStr q ≠ target := by
  intro h
  have hl := congrArg String.length h
  unfold floatStr at hl
  rw [String.length_append, String.length_append, ht] at hl
  have hd : ("." : String).length = 1 := by decide
  rw [hd] at hl
  have hs : 1 ≤ (if q.den = 1 then "0" else natStr q.den).length := by
    split
    · decide
    · exact natStr_length_pos q.den
  omega

theorem floatStr_ne_one (q : ℚ) : floatStr q ≠ "1" :=
  floatStr_length_ne_one (by decide)

theorem floatStr_ne_tav (q : ℚ) : floatStr q ≠ "ת" :=
  floatStr_length_ne_one (by decide)

/-! ## Characterization of the normalizer on each kind of raw value -/

theorem classify_nan : classify RawVal.nan = Status.absent := rfl

theorem classify_str (s : String) :
    classify (RawVal.str s) =
      (if s = "" then Status.absent
       else if s = "1" then Status.present
       else if s = "ת" then Status.donated
       else Status.absent) := by
  rcases eq_or_ne s "" with h0 | h0
  · subst h0; decide
  · rcases eq_or_ne s "1" with h1 | h1
    · subst h1; decide
    · rcases eq_or_ne s "ת" with h2 | h2
      · subst h2; decide
      · simp [classify, peq, pystr, RawVal.isna, h0, h1, h2]

theorem classify_int (n : Int) :
    classify (RawVal.int n) =
      (if n = 0 then Status.absent
       else if n = 1 then Status.present
       else Status.absent) := by
  rcases eq_or_ne n 0 with h0 | h0
  · subst h0; decide
  · rcases eq_or_ne n 1 with h1 | h1
    · subst h1; decide
    · have hs1 : intStr n ≠ "1" := fun hh => h1 ((intStr_eq_one_iff n).mp hh)
      have hs2 : intStr n ≠ "ת" := intStr_ne_tav n
      simp [classify, peq, pystr, RawVal.isna, h0, h1, hs1, hs2, Int.cast_injective.eq_iff]

theorem classify_float (q : ℚ) :
    classify (RawVal.float q) =
      (if q = 0 then Status.absent
       else if q = 1 then Status.present
       else Status.absent) := by
  rcases eq_or_ne q 0 with h0 | h0
  · simp [classify, peq, pystr, RawVal.isna, h0]
  · rcases eq_or_ne q 1 with h1 | h1
    · simp [classify, peq, pystr, RawVal.isna, h0, h1]
    · simp [classify, peq, pystr, RawVal.isna, h0, h1, floatStr_ne_one q, floatStr_ne_tav q]

/-! ## Generic list and row lemmas -/

theorem foldl_if_append {α : Type} (p : α → Bool) (l : List α) : ∀ (acc : List α),
    l.foldl (fun a x => if p x then a ++ [x] else a) acc = acc ++ l.filter p := by
  induction l with
  | nil => intro acc; simp
  | cons x t ih =>
    intro acc
    by_cases h : p x
    · simp [List.foldl_cons, h, ih, List.filter_cons]
    · simp [List.foldl_cons, h, ih, List.filter_cons]

theorem tally_go {α : Type} (f : α → Status) (l : List α) : ∀ (a b c : Nat),
    l.foldl (fun acc x =>
      match f x with
      | Status.present => (acc.1 + 1, acc.2.1, acc.2.2)
      | Status.donated => (acc.1, acc.2.1 + 1, acc.2.2)
      | Status.absent => (acc.1, acc.2.1, acc.2.2 + 1)) (a, b, c)
    = (a + l.countP (fun x => f x == Status.present),
       b + l.countP (fun x => f x == Status.donated),
       c + l.countP (fun x => f x == Status.absent)) := by
  induction l with
  | nil => intro a b c; simp
  | cons x t ih =>
    intro a b c
    cases hf : f x <;>
      simp [List.foldl_cons, List.countP_cons, hf, ih] <;> omega

theorem tally_eq {α : Type} (f : α → Status) (l : List α) :
    tally l f = (l.countP (fun x => f x == Status.present),
                 l.countP (fun x => f x == Status.donated),
                 l.countP (fun x => f x == Status.absent)) := by
  unfold tally
  rw [tally_go]
  simp

theorem countP_status_sum {α : Type} (f : α → Status) (l : List α) :
    l.countP (fun x => f x == Status.present)
      + l.countP (fun x => f x == Status.donated)
      + l.countP (fun x => f x == Status.absent) = l.length := by
  induction l with
  | nil => rfl
  | cons x t ih =>
    cases hf : f x <;> simp [List.countP_cons, hf] <;> omega

theorem row_get_set_self (r : Row) (c : String) (v : RawVal) :
    Row.get (Row.set r c v) c = v := by
  induction r with
  | nil => simp [Row.set, Row.get]
  | cons p t ih =>
    by_cases h : p.1 = c
    · simp [Row.set, h, Row.get, ih]
    · simp [Row.set, h, Row.get, ih]

theorem row_get_set_ne (r : Row) (c c2 : String) (v : RawVal) (h : c2 ≠ c) :
    Row.get (Row.set r c v) c2 = Row.get r c2 := by
  induction r with
  | nil => simp [Row.set, Row.get, Ne.symm h]
  | cons p t ih =>
    by_cases hp : p.1 = c
    · simp [Row.set, hp, Row.get, ih, Ne.symm h]
    · simp [Row.set, hp, Row.get, ih]

theorem row_get_map_const (cols : List String) (x : RawVal) (c : String) (h : c ∈ cols) :
    Row.get (cols.map (fun c0 => (c0, x))) c = x := by
  induction cols with
  | nil => cases h
  | cons d t ih =>
    by_cases hd : d = c
    · simp [Row.get, hd]
    · rcases List.mem_cons.mp h with h1 | h1
      · exact absurd h1.symm hd
      · simp only [List.map_cons, Row.get, hd, if_false]
        exact ih h1

theorem list_getD_set_ne {α : Type} (l : List α) : ∀ (i j : Nat) (a d : α), j ≠ i →
    (l.set i a).getD j d = l.getD j d := by
  induction l with
  | nil => intro i j a d _; rfl
  | cons x t ih =>
    intro i j a d h
    cases i with
    | zero =>
      cases j with
      | zero => exact absurd rfl h
      | succ j2 => rfl
    | succ i2 =>
      cases j with
      | zero => rfl
      | succ j2 =>
        simp only [List.set]
        have := ih i2 j2 a d (by omega)
        simpa [List.getD] using this

theorem list_getD_set_self {α : Type} (l : List α) : ∀ (i : Nat) (a d : α), i < l.length →
    (l.set i a).getD i d = a := by
  induction l with
  | nil => intro i a d h; simp at h
  | cons x t ih =>
    intro i a d h
    cases i with
    | zero => rfl
    | succ i2 =>
      simp only [List.set]
      have := ih i2 a d (by simpa using h)
      simpa [List.getD] using this

theorem list_set_of_ge {α : Type} (l : List α) : ∀ (i : Nat) (a : α), l.length ≤ i →
    l.set i a = l := by
  induction l with
  | nil => intro i a _; rfl
  | cons x t ih =>
    intro i a h
    cases i with
    | zero => simp at h
    | succ i2 =>
      simp only [List.set, List.cons.injEq, true_and]
      exact ih i2 a (by simpa using h)

theorem list_getD_map_row (f : Row → Row) (l : List Row) : ∀ (j : Nat), j < l.length →
    (l.map f).getD j [] = f (l.getD j []) := by
  induction l with
  | nil => intro j h; simp at h
  | cons x t ih =>
    intro j h
    cases j with
    | zero => rfl
    | succ j2 =>
      simp only [List.map_cons]
      have := ih j2 (by simpa using h)
      simpa [List.getD] using this

theorem list_getD_ge {α : Type} (l : List α) (j : Nat) (d : α) (h : l.length ≤ j) :
    l.getD j d = d := by
  rw [List.getD_eq_getElem?_getD]
  rw [List.getElem?_eq_none (by omega)]
  rfl

/-! ## Table-level frame lemmas -/

theorem cols_setCell (df : Table) (i : Nat) (c : String) (v : RawVal) :
    (Table.setCell df i c v).cols = df.cols := rfl

theorem cell_setCell_other_row (df : Table) (i j : Nat) (c c2 : String) (v : RawVal)
    (h : j ≠ i) : Table.cell (Table.setCell df i c v) j c2 = Table.cell df j c2 := by
  unfold Table.cell Table.setCell
  rw [list_getD_set_ne _ _ _ _ _ h]

theorem cell_setCell_same_other_col (df : Table) (i : Nat) (c c2 : String) (v : RawVal)
    (h : c2 ≠ c) : Table.cell (Table.setCell df i c v) i c2 = Table.cell df i c2 := by
  unfold Table.cell Table.setCell
  by_cases hl : i < df.rows.length
  · rw [list_getD_set_self _ _ _ _ hl, row_get_set_ne _ _ _ _ h]
  · rw [list_set_of_ge _ _ _ (by omega)]

theorem cols_addCol (df : Table) (c : String) (v : RawVal) :
    (Table.addCol df c v).cols = df.cols ++ [c] := rfl

theorem cell_addCol_other_col (df : Table) (c c2 : String) (v : RawVal) (j : Nat)
    (h : c2 ≠ c) : Table.cell (Table.addCol df c v) j c2 = Table.cell df j c2 := by
  unfold Table.cell Table.addCol
  by_cases hl : j < df.rows.length
  · rw [list_getD_map_row _ _ _ hl, row_get_set_ne _ _ _ _ h]
  · rw [list_getD_ge _ _ _ (by simpa using hl), list_getD_ge _ _ _ (by omega)]

theorem foldl_setCell_cols (sts : List (String × Status)) : ∀ (df : Table) (idx : Nat),
    (sts.foldl (fun d p => Table.setCell d idx p.1 (encodeStatus p.2)) df).cols = df.cols := by
  induction sts with
  | nil => intro df idx; rfl
  | cons p t ih =>
    intro df idx
    rw [List.foldl_cons, ih, cols_setCell]

theorem foldl_setCell_other_row (sts : List (String × Status)) :
    ∀ (df : Table) (idx j : Nat) (c2 : String), j ≠ idx →
    Table.cell (sts.foldl (fun d p => Table.setCell d idx p.1 (encodeStatus p.2)) df) j c2
      = Table.cell df j c2 := by
  induction sts with
  | nil => intro df idx j c2 _; rfl
  | cons p t ih =>
    intro df idx j c2 h
    rw [List.foldl_cons, ih _ _ _ _ h, cell_setCell_other_row _ _ _ _ _ _ h]

theorem foldl_setCell_other_col (sts : List (String × Status)) :
    ∀ (df : Table) (idx : Nat) (c2 : String), (∀ p ∈ sts, p.1 ≠ c2) →
    Table.cell (sts.foldl (fun d p => Table.setCell d idx p.1 (encodeStatus p.2)) df) idx c2
      = Table.cell df idx c2 := by
  induction sts with
  | nil => intro df idx c2 _; rfl
  | cons p t ih =>
    intro df idx c2 h
    rw [List.foldl_cons,
      ih _ _ _ (fun q hq => h q (List.mem_cons_of_mem p hq)),
      cell_setCell_same_other_col _ _ _ _ _ (Ne.symm (h p (List.mem_cons_self p t)))]

/-! ## Lemmas about names, Python equality and first-match lookup -/

theorem peq_refl {v : RawVal} (h : RawVal.isna v = false) : peq v v = true := by
  cases v <;> simp [peq, RawVal.isna] at h ⊢

theorem mem_dedupFirst {x : RawVal} : ∀ {l : List RawVal}, x ∈ dedupFirst l → x ∈ l := by
  intro l
  induction l with
  | nil => intro h; cases h
  | cons a t ih =>
    intro h
    rcases List.mem_cons.mp h with h1 | h1
    · exact h1 ▸ List.mem_cons_self a t
    · exact List.mem_cons_of_mem a (ih (List.mem_filter.mp h1).1)

theorem isna_of_mem_tableNames {df : Table} {n : RawVal} (h : n ∈ tableNames df) :
    RawVal.isna n = false := by
  unfold tableNames at h
  have h2 := List.mem_filter.mp (mem_dedupFirst h)
  simpa using h2.2

theorem find?_append_of_none {α : Type} (p : α → Bool) :
    ∀ (l1 l2 : List α), l1.find? p = none → (l1 ++ l2).find? p = l2.find? p := by
  intro l1
  induction l1 with
  | nil => intro l2 _; rfl
  | cons x t ih =>
    intro l2 h
    rw [List.cons_append]
    cases hp : p x
    · simp only [List.find?_cons, hp] at h ⊢
      exact ih l2 h
    · simp [List.find?_cons, hp] at h

theorem firstMatchIdx_eq_none {name : String} : ∀ {rows : List Row},
    (∀ r ∈ rows, peq (Row.get r "שם") (RawVal.str name) = false) →
    firstMatchIdx rows name = none := by
  intro rows
  induction rows with
  | nil => intro _; rfl
  | cons r t ih =>
    intro h
    unfold firstMatchIdx
    rw [if_neg (by simp [h r (List.mem_cons_self r t)])]
    rw [ih (fun r2 hr2 => h r2 (List.mem_cons_of_mem r hr2))]
    rfl

/-! ## Claim theorems -/

/-- C1: the value normalizer is total over raw cell values and maps them by the
rule, applied in order: missing/NaN, empty string, or zero → Absent; the number
1 (including 1.0) or the string "1" → Present; the marker token "ת" → Donated;
every other value → Absent.  The result is always one of exactly these three
states, and the normalizer is a total function (no error for any input). -/
theorem C1_normalizer_total_and_rule (v : RawVal) :
    classify v = specNormalize v
    ∧ (classify v = Status.absent ∨ classify v = Status.present
        ∨ classify v = Status.donated) := by
  constructor
  · cases v with
    | nan => rfl
    | int n =>
      rw [classify_int]
      rcases eq_or_ne n 0 with h0 | h0
      · simp [specNormalize, h0]
      · rcases eq_or_ne n 1 with h1 | h1
        · simp [specNormalize, h0, h1]
        · simp [specNormalize, h0, h1]
    | float q =>
      rw [classify_float]
      rcases eq_or_ne q 0 with h0 | h0
      · simp [specNormalize, h0]
      · rcases eq_or_ne q 1 with h1 | h1
        · simp [specNormalize, h0, h1]
        · simp [specNormalize, h0, h1]
    | str s =>
      rw [classify_str]
      rcases eq_or_ne s "" with h0 | h0
      · simp [specNormalize, h0]
      · rcases eq_or_ne s "1" with h1 | h1
        · simp [specNormalize, h0, h1]
        · rcases eq_or_ne s "ת" with h2 | h2
          · simp [specNormalize, h0, h1, h2]
          · simp [specNormalize, h0, h1, h2]
  · cases h : classify v
    · exact Or.inl rfl
    · exact Or.inr (Or.inl rfl)
    · exact Or.inr (Or.inr rfl)

theorem classify_encode (st : Status) : classify (encodeStatus st) = st := by
  cases st <;> rfl

/-- C7: the normalizer is stable under the write encoding: for every raw cell
value, encoding its normalized state (Absent → empty string, Present → 1,
Donated → "ת") and normalizing again yields the same state. -/
theorem C7_roundtrip_stable (v : RawVal) :
    classify (encodeStatus (classify v)) = classify v :=
  classify_encode (classify v)

/-- C2: on the verify-and-save click, the regression list is exactly the items
whose stored state is not Absent and whose working state is Absent; the success
report is shown iff that list is empty; and the save is invoked either way with
the full working assignment. -/
theorem C2_regression_set_and_save (s : Store) (df : Table) (name : String)
    (w : String → Status) (notes : String) :
    (∀ it, it ∈ (main_verify s df name w notes).1 ↔
        (it ∈ get_all_items df ∧ get_person_item_status df name it ≠ Status.absent
          ∧ w it = Status.absent))
    ∧ ((main_verify s df name w notes).2.1 = true ↔ (main_verify s df name w notes).1 = [])
    ∧ (main_verify s df name w notes).2.2
        = save_verification s df name ((get_all_items df).map (fun it => (it, w it))) notes := by
  have hfold : (main_verify s df name w notes).1
      = (get_all_items df).filter
          (fun it => (!(get_person_item_status df name it == Status.absent))
            && (w it == Status.absent)) := by
    show (get_all_items df).foldl
        (fun acc it =>
          if (!(get_person_item_status df name it == Status.absent))
              && (w it == Status.absent)
          then acc ++ [it] else acc) [] = _
    rw [foldl_if_append]
    simp
  refine ⟨?_, ?_, rfl⟩
  · intro it
    rw [hfold, List.mem_filter]
    simp
  · have h2 : (main_verify s df name w notes).2.1
        = (main_verify s df name w notes).1.isEmpty := rfl
    rw [h2, hfold]
    exact List.isEmpty_iff

/-- C5: saving for a person key matching no row is a pure no-op failure: the
result is the "not found" failure, the table is unchanged, and the persistence
state (main contents and backup) is untouched. -/
theorem C5_save_not_found (s : Store) (df : Table) (name : String)
    (sts : List (String × Status)) (notes : String)
    (h : ∀ r ∈ df.rows, peq (Row.get r "שם") (RawVal.str name) = false) :
    save_verification s df name sts notes = (none, df, s) := by
  unfold save_verification
  rw [firstMatchIdx_eq_none h]

theorem C5_witness :
    save_verification wstore wdf9 "c" [("X", Status.present)] "" = (none, wdf9, wstore) :=
  C5_save_not_found wstore wdf9 "c" [("X", Status.present)] "" (by decide)

/-- C3 counterexample: on a table with one named row and one unnamed row, both
holding 1 for item "X", the per-item summary counts Present across all rows
(2) and not across all people (1 distinct named person with state Present), so
the claim that the summary "counts Present, Donated, and Absent across all
people" fails at this concrete table. -/
theorem C3_counterexample :
    (summarizeItem cexC3 "X").has_count = 2
    ∧ specCountAcrossPeople cexC3 "X" Status.present = 1
    ∧ ¬((summarizeItem cexC3 "X").has_count
        = specCountAcrossPeople cexC3 "X" Status.present) := by
  refine ⟨by decide, by decide, by decide⟩

/-- C3 amended: the per-item summary tallies Present, Donated and Absent across
all table rows (rows with a missing or duplicated name are each tallied, so
these are not exactly the distinct named people), and the coverage percentage
is (Present+Donated)/totalPeople × 100 rounded to one decimal, where
totalPeople is the number of distinct non-missing names; when totalPeople is 0
the percentage is 0 and no division occurs. -/
theorem C3_amended_per_item_summary (df : Table) (item : String) :
    (summarizeItem df item).has_count
        = df.rows.countP (fun r => classify (Row.get r item) == Status.present)
    ∧ (summarizeItem df item).donation_count
        = df.rows.countP (fun r => classify (Row.get r item) == Status.donated)
    ∧ (summarizeItem df item).missing_count
        = df.rows.countP (fun r => classify (Row.get r item) == Status.absent)
    ∧ (summarizeItem df item).total_exists
        = (summarizeItem df item).has_count + (summarizeItem df item).donation_count
    ∧ total_people df = (tableNames df).length
    ∧ (summarizeItem df item).pct_exists
        = (if total_people df > 0 then
             round1 ((((summarizeItem df item).has_count
               + (summarizeItem df item).donation_count : ℚ))
               / ((total_people df : ℚ)) * 100)
           else 0) := by
  unfold summarizeItem
  simp [tally_eq]
  rfl

/-- C10: the three tally counts partition the cells: per item, Present +
Donated + Absent equals the number of table rows (so it can exceed the number
of distinct named people when rows have empty names); per listed person, the
three counts sum to the number of item columns. -/
theorem C10_tally_partition (df : Table) (item : String) :
    (summarizeItem df item).has_count + (summarizeItem df item).donation_count
        + (summarizeItem df item).missing_count = df.rows.length
    ∧ (summarizePersons df).all
        (fun e => e.has_count + e.donation_count + e.missing_count
          == (get_all_items df).length) = true := by
  constructor
  · unfold summarizeItem
    simp only [tally_eq]
    exact countP_status_sum _ _
  · rw [List.all_eq_true]
    intro e he
    unfold summarizePersons at he
    obtain ⟨r, hr, hfr⟩ := List.mem_filterMap.mp he
    by_cases hskip :
        (RawVal.isna (Row.get r "שם") || peq (Row.get r "שם") (RawVal.str "")) = true
    · rw [if_pos hskip] at hfr
      exact Option.noConfusion hfr
    · rw [if_neg hskip] at hfr
      have he2 := Option.some.inj hfr
      rw [← he2]
      simp only [tally_eq]
      rw [beq_iff_eq]
      exact countP_status_sum _ _

/-- C4: add-user fails iff the given name is empty or already present in the
name column under case-sensitive exact match; on failure no write happens and
the table (hence its row count) is unchanged; on success exactly one row is
appended, holding the given name, team and storage-cell values, with every
item column empty. -/
theorem C4_add_user (df : Table) (name team cell : String) :
    ((admin_add_user df name team cell).2 = false ↔
        (name = "" ∨ df.rows.any (fun r => peq (Row.get r "שם") (RawVal.str name)) = true))
    ∧ ((admin_add_user df name team cell).2 = false →
        (admin_add_user df name team cell).1 = df)
    ∧ ((admin_add_user df name team cell).2 = true →
        (admin_add_user df name team cell).1.rows
            = df.rows ++ [newUserRow df.cols name team cell]
        ∧ (admin_add_user df name team cell).1.rows.length = df.rows.length + 1
        ∧ Row.get (newUserRow df.cols name team cell) "שם" = RawVal.str name
        ∧ Row.get (newUserRow df.cols name team cell) "צוות" = RawVal.str team
        ∧ Row.get (newUserRow df.cols name team cell) "תא אחסון" = RawVal.str cell
        ∧ (∀ it ∈ get_all_items df,
            Row.get (newUserRow df.cols name team cell) it = RawVal.str "")) := by
  have hname : Row.get (newUserRow df.cols name team cell) "שם" = RawVal.str name := by
    unfold newUserRow
    rw [row_get_set_ne _ _ _ _ (by decide), row_get_set_ne _ _ _ _ (by decide),
      row_get_set_self]
  have hteam : Row.get (newUserRow df.cols name team cell) "צוות" = RawVal.str team := by
    unfold newUserRow
    rw [row_get_set_ne _ _ _ _ (by decide), row_get_set_self]
  have hcell : Row.get (newUserRow df.cols name team cell) "תא אחסון" = RawVal.str cell := by
    unfold newUserRow
    rw [row_get_set_self]
  have hitem : ∀ it ∈ get_all_items df,
      Row.get (newUserRow df.cols name team cell) it = RawVal.str "" := by
    intro it hit
    have h2 := List.mem_filter.mp hit
    have hnm : it ∉ METADATA_COLS := by simpa using h2.2
    have ne1 : it ≠ "תא אחסון" := by
      intro h
      exact hnm (h ▸ (by decide : ("תא אחסון" : String) ∈ METADATA_COLS))
    have ne2 : it ≠ "צוות" := by
      intro h
      exact hnm (h ▸ (by decide : ("צוות" : String) ∈ METADATA_COLS))
    have ne3 : it ≠ "שם" := by
      intro h
      exact hnm (h ▸ (by decide : ("שם" : String) ∈ METADATA_COLS))
    unfold newUserRow
    rw [row_get_set_ne _ _ _ _ ne1, row_get_set_ne _ _ _ _ ne2,
      row_get_set_ne _ _ _ _ ne3]
    exact row_get_map_const _ _ _ h2.1
  by_cases h0 : name = ""
  · refine ⟨by simp [admin_add_user, h0], fun _ => by simp [admin_add_user, h0], fun ht => ?_⟩
    rw [show (admin_add_user df name team cell).2 = false by simp [admin_add_user, h0]] at ht
    exact Bool.noConfusion ht
  · by_cases h1 : df.rows.any (fun r => peq (Row.get r "שם") (RawVal.str name)) = true
    · refine ⟨by simp [admin_add_user, h0, h1], fun _ => by simp [admin_add_user, h0, h1],
        fun ht => ?_⟩
      rw [show (admin_add_user df name team cell).2 = false by
        simp [admin_add_user, h0, h1]] at ht
      exact Bool.noConfusion ht
    · refine ⟨by simp [admin_add_user, h0, h1], fun hf => ?_, fun _ => ?_⟩
      · rw [show (admin_add_user df name team cell).2 = true by
          simp [admin_add_user, h0, h1]] at hf
        exact Bool.noConfusion hf
      · refine ⟨by simp [admin_add_user, h0, h1], by simp [admin_add_user, h0, h1],
          hname, hteam, hcell, hitem⟩

theorem C4_witness :
    ((admin_add_user wdf4 "b" "t2" "c2").2 = true
      ∧ (admin_add_user wdf4 "b" "t2" "c2").1.rows.length = wdf4.rows.length + 1)
    ∧ ((admin_add_user wdf4 "a" "t3" "c3").2 = false
      ∧ (admin_add_user wdf4 "a" "t3" "c3").1 = wdf4) :=
  ⟨⟨by decide, ((C4_add_user wdf4 "b" "t2" "c2").2.2 (by decide)).2.1⟩,
   ⟨(C4_add_user wdf4 "a" "t3" "c3").1.mpr (Or.inr (by decide)),
    (C4_add_user wdf4 "a" "t3" "c3").2.1 ((C4_add_user wdf4 "a" "t3" "c3").1.mpr
      (Or.inr (by decide)))⟩⟩

/-- C6: ensuring the backup is idempotent on both backends: an existing backup
is never overwritten, a missing backup is created as a full copy of the current
contents, and calling the operation twice equals calling it once.  The first
two conjuncts state idempotence for the remote worksheet backend and for the
store used by the save path (the local backend's first-save copy); the rest
state the existing-backup and missing-backup behaviors for each. -/
theorem C6_ensure_backup_idempotent (sp : Spreadsheet) (s : Store) :
    ensure_backup_exists (ensure_backup_exists sp) = ensure_backup_exists sp
    ∧ backup_step (backup_step s) = backup_step s
    ∧ (∀ w, findBackup sp = some w → ensure_backup_exists sp = sp)
    ∧ (findBackup sp = none →
        findBackup (ensure_backup_exists sp)
          = some { title := BACKUP_TITLE, grid := (sheet1 sp).grid })
    ∧ (∀ t, s.backup = some t → backup_step s = s)
    ∧ (s.backup = none → backup_step s = { main := s.main, backup := some s.main }) := by
  refine ⟨?_, ?_, ?_, ?_, ?_, ?_⟩
  · by_cases hc : (sp.sheets.map Worksheet.title).contains BACKUP_TITLE = true
    · unfold ensure_backup_exists
      rw [if_pos hc, if_pos hc]
    · have h1 : ensure_backup_exists sp
          = { sheets := sp.sheets ++ [{ title := BACKUP_TITLE, grid := (sheet1 sp).grid }] } := by
        unfold ensure_backup_exists
        rw [if_neg hc]
      rw [h1]
      unfold ensure_backup_exists
      rw [if_pos (by simp)]
  · cases hb : s.backup with
    | some t => simp [backup_step, hb]
    | none => simp [backup_step, hb]
  · intro w hw
    have hmem := List.mem_of_find?_eq_some hw
    have hp := List.find?_some hw
    unfold ensure_backup_exists
    rw [if_pos (by
      simpa using List.mem_map.mpr ⟨w, hmem, beq_iff_eq.mp hp⟩)]
  · intro hn
    unfold findBackup at hn
    have hforall := List.find?_eq_none.mp hn
    have hc : ¬((sp.sheets.map Worksheet.title).contains BACKUP_TITLE = true) := by
      intro hcc
      have hm : BACKUP_TITLE ∈ sp.sheets.map Worksheet.title := by simpa using hcc
      obtain ⟨w, hw, ht⟩ := List.mem_map.mp hm
      exact hforall w hw (by simp [ht])
    unfold ensure_backup_exists
    rw [if_neg hc]
    unfold findBackup
    rw [find?_append_of_none _ _ _ hn]
    simp [List.find?]
  · intro t ht
    simp [backup_step, ht]
  · intro hn
    simp [backup_step, hn]

theorem C6_witness :
    findBackup (ensure_backup_exists wsp)
        = some { title := BACKUP_TITLE, grid := (sheet1 wsp).grid }
    ∧ backup_step wstore = { main := wstore.main, backup := some wstore.main } :=
  ⟨(C6_ensure_backup_idempotent wsp wstore).2.2.2.1 (by decide),
   (C6_ensure_backup_idempotent wsp wstore).2.2.2.2.2 (by decide)⟩

/-- C8: diffing a table against an identical backup reports no changes: zero
item change records, zero added users, and zero removed users. -/
theorem C8_diff_identical_empty (df : Table) :
    admin_summarize_changes df df = ([], [], []) := by
  simp only [admin_summarize_changes, Prod.mk.injEq]
  refine ⟨?_, ?_, ?_⟩
  · rw [List.flatMap_eq_nil_iff]
    intro n hn
    have hnn : n ∈ tableNames df := (List.mem_filter.mp hn).1
    unfold changesFor
    cases hf : df.rows.find? (fun r => peq (Row.get r "שם") n) with
    | none => simp [hf]
    | some br =>
      simp only [hf]
      rw [List.filterMap_eq_nil_iff]
      intro it hit
      simp
  · rw [List.filter_eq_nil_iff]
    intro n hn
    have h1 : peq n n = true := peq_refl (isna_of_mem_tableNames hn)
    simp [List.any_eq_true]
    exact ⟨n, hn, h1⟩
  · rw [List.filter_eq_nil_iff]
    intro n hn
    have h1 : peq n n = true := peq_refl (isna_of_mem_tableNames hn)
    simp [List.any_eq_true]
    exact ⟨n, hn, h1⟩

theorem length_setCell (df : Table) (i : Nat) (c : String) (v : RawVal) :
    (Table.setCell df i c v).rows.length = df.rows.length := by
  unfold Table.setCell
  exact List.length_set df.rows i _

theorem cell_setCell_self (df : Table) (i : Nat) (c : String) (v : RawVal)
    (h : i < df.rows.length) : Table.cell (Table.setCell df i c v) i c = v := by
  unfold Table.cell Table.setCell
  rw [list_getD_set_self _ _ _ _ h, row_get_set_self]

theorem firstMatchIdx_lt_length {name : String} : ∀ {rows : List Row} {idx : Nat},
    firstMatchIdx rows name = some idx → idx < rows.length := by
  intro rows
  induction rows with
  | nil => intro idx h; exact Option.noConfusion h
  | cons r t ih =>
    intro idx h
    unfold firstMatchIdx at h
    split at h
    · have h2 := Option.some.inj h
      simp [← h2]
    · cases hm : firstMatchIdx t name with
      | none => rw [hm] at h; exact Option.noConfusion h
      | some j =>
        rw [hm] at h
        have h3 : j + 1 = idx := by simpa using h
        have := ih hm
        simp only [List.length_cons]
        omega

theorem foldl_setCell_mem_key (w : String → Status) (k : String) :
    ∀ (items : List String), k ∈ items → ∀ (df : Table) (idx : Nat), idx < df.rows.length →
    Table.cell ((items.map (fun it => (it, w it))).foldl
        (fun d p => Table.setCell d idx p.1 (encodeStatus p.2)) df) idx k
      = encodeStatus (w k) := by
  intro items
  induction items with
  | nil => intro hk; cases hk
  | cons it rest ih =>
    intro hk df idx hlen
    rw [List.map_cons, List.foldl_cons]
    by_cases hr : k ∈ rest
    · exact ih hr _ _ (by rw [length_setCell]; exact hlen)
    · have hik : k = it := by
        rcases List.mem_cons.mp hk with h | h
        · exact h
        · exact absurd h hr
      subst hik
      rw [foldl_setCell_other_col _ _ _ _ (fun p hp => ?_)]
      · exact cell_setCell_self df idx k (encodeStatus (w k)) hlen
      · obtain ⟨it2, hit2, hpe⟩ := List.mem_map.mp hp
        rw [← hpe]
        intro hcc
        exact hr (hcc ▸ hit2)

/-- C9 counterexample: on a table that already has a notes column, the app's
verify-and-save with the empty notes argument overwrites the matched row's
existing notes cell.  The notes column is not in `METADATA_COLS`, so
`get_all_items` returns it as an item; the working state for its free text
defaults to "אין" (the text normalizes to absent), and the item-status loop of
`save_verification` writes the empty encoding over it.  So "an existing notes
cell is left untouched (notes cannot be cleared by saving with empty notes)"
fails at this concrete input. -/
theorem C9_counterexample :
    Table.cell ndf 0 "הערות" = RawVal.str "hello"
    ∧ "הערות" ∈ get_all_items ndf
    ∧ Table.cell (main_verify nstore ndf "a" (fun _ => Status.absent) "").2.2.2.1 0 "הערות"
        = RawVal.str ""
    ∧ ¬(Table.cell (main_verify nstore ndf "a" (fun _ => Status.absent) "").2.2.2.1 0 "הערות"
        = Table.cell ndf 0 "הערות") := by
  refine ⟨by decide, by decide, by decide, by decide⟩

/-- C9 amended: save modifies only the selected person's row.  For every row
other than the first row matching the name, every pre-existing cell (a cell of
a column present before the save) keeps its value.  In the matched row, the
cells of the metadata columns keep their values when the item statuses' keys
are item columns (disjoint from `METADATA_COLS`, as `get_all_items` guarantees
for the app's loop).  When the notes argument is empty no notes column is
created; an existing notes cell, however, is not protected: the notes column
is not a metadata column, so once it exists the app's loop passes it as an
item, and the save writes the working state's encoding over the matched row's
notes cell even with empty notes (last conjunct) — notes can be cleared by
saving with empty notes. -/
theorem C9_save_frame (s : Store) (df : Table) (name : String)
    (sts : List (String × Status)) (notes : String) (idx : Nat)
    (hidx : firstMatchIdx df.rows name = some idx)
    (hkeys : ∀ p ∈ sts, p.1 ∉ METADATA_COLS) :
    (∀ j, j ≠ idx → ∀ c ∈ df.cols,
      Table.cell (save_verification s df name sts notes).2.1 j c = Table.cell df j c)
    ∧ (∀ c ∈ METADATA_COLS,
      Table.cell (save_verification s df name sts notes).2.1 idx c = Table.cell df idx c)
    ∧ (notes = "" → (save_verification s df name sts notes).2.1.cols = df.cols)
    ∧ (∀ w : String → Status, "הערות" ∈ get_all_items df →
        Table.cell (save_verification s df name
            ((get_all_items df).map (fun it => (it, w it))) "").2.1 idx "הערות"
          = encodeStatus (w "הערות")) := by
  have hpart4 : ∀ w : String → Status, "הערות" ∈ get_all_items df →
      Table.cell (save_verification s df name
          ((get_all_items df).map (fun it => (it, w it))) "").2.1 idx "הערות"
        = encodeStatus (w "הערות") := by
    intro w hw
    have hlen : idx < df.rows.length := firstMatchIdx_lt_length hidx
    have hfin4 : (save_verification s df name
        ((get_all_items df).map (fun it => (it, w it))) "").2.1
        = (if ("" : String) ≠ "" then
             Table.setCell
               (if ((((get_all_items df).map (fun it => (it, w it))).foldl
                     (fun d p => Table.setCell d idx p.1 (encodeStatus p.2)) df).cols.contains "הערות")
                then (((get_all_items df).map (fun it => (it, w it))).foldl
                     (fun d p => Table.setCell d idx p.1 (encodeStatus p.2)) df)
                else Table.addCol
                  (((get_all_items df).map (fun it => (it, w it))).foldl
                     (fun d p => Table.setCell d idx p.1 (encodeStatus p.2)) df)
                  "הערות" (RawVal.str ""))
               idx "הערות" (RawVal.str "")
           else ((get_all_items df).map (fun it => (it, w it))).foldl
             (fun d p => Table.setCell d idx p.1 (encodeStatus p.2)) df) := by
      unfold save_verification
      rw [hidx]
    rw [hfin4, if_neg (by simp)]
    exact foldl_setCell_mem_key w "הערות" (get_all_items df) hw df idx hlen
  have hfin : (save_verification s df name sts notes).2.1
      = (if notes ≠ "" then
           Table.setCell
             (if ((sts.foldl (fun d p => Table.setCell d idx p.1 (encodeStatus p.2)) df).cols.contains "הערות")
              then (sts.foldl (fun d p => Table.setCell d idx p.1 (encodeStatus p.2)) df)
              else Table.addCol
                (sts.foldl (fun d p => Table.setCell d idx p.1 (encodeStatus p.2)) df)
                "הערות" (RawVal.str ""))
             idx "הערות" (RawVal.str notes)
         else sts.foldl (fun d p => Table.setCell d idx p.1 (encodeStatus p.2)) df) := by
    unfold save_verification
    rw [hidx]
  by_cases hn : notes = ""
  · have hfin2 : (save_verification s df name sts notes).2.1
        = sts.foldl (fun d p => Table.setCell d idx p.1 (encodeStatus p.2)) df := by
      rw [hfin, if_neg (by simp [hn])]
    refine ⟨?_, ?_, fun _ => ?_, hpart4⟩
    · intro j hj c _
      rw [hfin2]
      exact foldl_setCell_other_row sts df idx j c hj
    · intro c hc
      rw [hfin2]
      refine foldl_setCell_other_col sts df idx c (fun p hp => ?_)
      intro hpc
      exact hkeys p hp (hpc ▸ hc)
    · rw [hfin2, foldl_setCell_cols]
  · have hfin2 : (save_verification s df name sts notes).2.1
        = Table.setCell
            (if ((sts.foldl (fun d p => Table.setCell d idx p.1 (encodeStatus p.2)) df).cols.contains "הערות")
             then (sts.foldl (fun d p => Table.setCell d idx p.1 (encodeStatus p.2)) df)
             else Table.addCol
               (sts.foldl (fun d p => Table.setCell d idx p.1 (encodeStatus p.2)) df)
               "הערות" (RawVal.str ""))
            idx "הערות" (RawVal.str notes) := by
      rw [hfin, if_pos (by simp [hn])]
    refine ⟨?_, ?_, fun hcontra => absurd hcontra hn, hpart4⟩
    · intro j hj c hc
      rw [hfin2, cell_setCell_other_row _ _ _ _ _ _ hj]
      by_cases hcol :
          ((sts.foldl (fun d p => Table.setCell d idx p.1 (encodeStatus p.2)) df).cols.contains "הערות") = true
      · rw [if_pos hcol]
        exact foldl_setCell_other_row sts df idx j c hj
      · rw [if_neg hcol]
        have hne : c ≠ "הערות" := by
          intro hcc
          rw [foldl_setCell_cols] at hcol
          exact hcol (by simpa [hcc] using hc)
        rw [cell_addCol_other_col _ _ _ _ _ hne]
        exact foldl_setCell_other_row sts df idx j c hj
    · intro c hc
      have hne : c ≠ "הערות" := by
        intro hcc
        exact (by decide : ("הערות" : String) ∉ METADATA_COLS) (hcc ▸ hc)
      rw [hfin2, cell_setCell_same_other_col _ _ _ _ _ hne]
      by_cases hcol :
          ((sts.foldl (fun d p => Table.setCell d idx p.1 (encodeStatus p.2)) df).cols.contains "הערות") = true
      · rw [if_pos hcol]
        refine foldl_setCell_other_col sts df idx c (fun p hp => ?_)
        intro hpc
        exact hkeys p hp (hpc ▸ hc)
      · rw [if_neg hcol]
        rw [cell_addCol_other_col _ _ _ _ _ hne]
        refine foldl_setCell_other_col sts df idx c (fun p hp => ?_)
        intro hpc
        exact hkeys p hp (hpc ▸ hc)

theorem C9_witness :
    Table.cell (save_verification wstore wdf9 "a" [("X", Status.present)] "").2.1 1 "X"
        = Table.cell wdf9 1 "X"
    ∧ Table.cell (save_verification wstore wdf9 "a" [("X", Status.present)] "").2.1 0 "צוות"
        = Table.cell wdf9 0 "צוות"
    ∧ (save_verification wstore wdf9 "a" [("X", Status.present)] "").2.1.cols = wdf9.cols
    ∧ Table.cell (save_verification nstore ndf "a"
          ((get_all_items ndf).map (fun it => (it, Status.absent))) "").2.1 0 "הערות"
        = encodeStatus Status.absent :=
  ⟨(C9_save_frame wstore wdf9 "a" [("X", Status.present)] "" 0 (by decide) (by decide)).1
      1 (by decide) "X" (by decide),
   (C9_save_frame wstore wdf9 "a" [("X", Status.present)] "" 0 (by decide) (by decide)).2.1
      "צוות" (by decide),
   (C9_save_frame wstore wdf9 "a" [("X", Status.present)] "" 0 (by decide) (by decide)).2.2.1
      rfl,
   (C9_save_frame nstore ndf "a" [] "" 0 (by decide) (by decide)).2.2.2
      (fun _ => Status.absent) (by decide)⟩
